import Mathlib

set_option maxRecDepth 100000

/-!
Shallow embedding of the release-automation helper's changelog pipeline
(`src/util/release/src/archive/release.nx.ts` and
`src/util/release/src/changelog.ts`).

JavaScript strings are modelled as `List Char`.  The JS `String.prototype.split`
with a non-empty string separator, the two regular expressions used by the
parser, `parseInt`, `String.prototype.trim`, JS `Set` insertion and JS object
key-insertion order (`Object.entries`) are all modelled explicitly below.
Runtime exceptions (`throw new Error`, `TypeError` on `undefined` property
access) are modelled with `Except`.
-/

/-- JavaScript strings, modelled as lists of characters. -/
abbrev Str := List Char

/-- `gitConfig.markers.begin`. -/
def beginM : Str := "__BEGIN__".data

/-- `gitConfig.markers.body`. -/
def bodyM : Str := "__BODY__".data

/-- `gitConfig.markers.files`. -/
def filesM : Str := "__FILES__".data

/-- `gitConfig.markers.delim`. -/
def delimM : Str := "__DELIM__".data

/-- The newline separator used by `files.split('\n')`. -/
def newlineM : Str := "\n".data

/-- The eleven commit types of `gitConfig.commitTypes`, in the literal's key order. -/
inductive CommitType where
  | build | chore | ci | docs | feat | fix | perf | refactor | revert | style | test
deriving DecidableEq, Repr

/-- The `type` string of each entry of `gitConfig.commitTypes`. -/
def CommitType.name : CommitType → Str
  | .build => "build".data
  | .chore => "chore".data
  | .ci => "ci".data
  | .docs => "docs".data
  | .feat => "feat".data
  | .fix => "fix".data
  | .perf => "perf".data
  | .refactor => "refactor".data
  | .revert => "revert".data
  | .style => "style".data
  | .test => "test".data

/-- The `title` string of each entry of `gitConfig.commitTypes`. -/
def CommitType.title : CommitType → Str
  | .build => "Build".data
  | .chore => "Chores".data
  | .ci => "CI".data
  | .docs => "Documentation".data
  | .feat => "Features".data
  | .fix => "Fixes".data
  | .perf => "Performance".data
  | .refactor => "Refactor".data
  | .revert => "Revert".data
  | .style => "Styles".data
  | .test => "Testing".data

/-- `Object.keys(gitConfig.commitTypes)`, in the object literal's insertion order. -/
def commitTypesList : List CommitType :=
  [.build, .chore, .ci, .docs, .feat, .fix, .perf, .refactor, .revert, .style, .test]

/-- Keys of the `CommitGroup` object: the eleven commit types plus `'breaking'`. -/
inductive GroupKey where
  | breaking
  | typ (t : CommitType)
deriving DecidableEq, Repr

/-- Runtime failures of the pipeline.  `headerUndefined`, `filesUndefined` and
`subjectUndefined` are the `TypeError`s raised by calling a method on an
`undefined` destructured value; `invalidCommitType` is the `Error` thrown by
`assertCommitType`; `missingToken` is the `Error` thrown by
`createGitHubRelease` when `process.env.GITHUB_TOKEN` is falsy. -/
inductive JsError where
  | headerUndefined
  | filesUndefined
  | subjectUndefined
  | invalidCommitType
  | missingToken
deriving DecidableEq, Repr

/-- The `CommitDetail` record returned by `getCommitDetail`. -/
structure CommitDetail where
  type : CommitType
  breaking : Bool
deriving DecidableEq, Repr

/-- The `Commit` record built inside `parseCommits`.  `authorDate` is
`new Date(parseInt(authorDateUnix) * 1000)`: `none` models an invalid date
(`parseInt` returned `NaN`), `some n` a timestamp of `n` milliseconds. -/
structure Commit where
  commitHashAbbr : Str
  authorName : Str
  authorDate : Option Int
  subject : Str
  files : List Str
  type : CommitType
  breaking : Bool
deriving DecidableEq, Repr

/-- The value returned by `parseCommits`: the `CommitGroup` object (an
association list in JS key-insertion order, as observed by `Object.entries`)
and the contributor `Set` (a list in JS `Set` insertion order, duplicates
discarded). -/
structure ParseResult where
  commitGroups : List (GroupKey × List Commit)
  contributors : List Str
deriving DecidableEq, Repr

/-! Section: JS string primitives -/

/-- Worker for `jsSplit`; `fuel` bounds the recursion and is initialised to the
string's length, which suffices because every step consumes at least one
character of the subject string (the separator is non-empty there). -/
def splitGo (sep : Str) : Nat → Str → Str → List Str
  | _, [], acc => [acc.reverse]
  | 0, s, acc => [acc.reverse ++ s]
  | Nat.succ fuel, c :: rest, acc =>
    if sep.isPrefixOf (c :: rest) then
      acc.reverse :: splitGo sep fuel (List.drop sep.length (c :: rest)) []
    else
      splitGo sep fuel rest (c :: acc)

/-- JS `s.split(sep)`: leftmost, non-overlapping occurrences of a non-empty
separator; an empty separator splits into single characters. -/
def jsSplit (sep s : Str) : List Str :=
  if sep = [] then s.map (fun c => [c]) else splitGo sep s.length s []

/-- Indices `i` at which `pat` occurs in `s` (i.e. `pat` is a prefix of `s.drop i`). -/
def occIdxs (pat s : Str) : List Nat :=
  (List.range (s.length + 1)).filter (fun i => pat.isPrefixOf (s.drop i))

/-- `true` iff `pat` occurs somewhere in `s`. -/
def occursIn (pat s : Str) : Bool :=
  (List.range (s.length + 1)).any (fun i => pat.isPrefixOf (s.drop i))

/-- JS whitespace as trimmed by `String.prototype.trim` (ASCII subset). -/
def isWsChar (c : Char) : Bool :=
  c == ' ' || c == '\t' || c == '\n' || c == '\r' || c == '\x0b' || c == '\x0c'

/-- Left half of JS `trim`. -/
def trimLeft (s : Str) : Str := s.dropWhile isWsChar

/-- Right half of JS `trim`. -/
def trimRight (s : Str) : Str := (s.reverse.dropWhile isWsChar).reverse

/-- JS `s.trim()`. -/
def jsTrim (s : Str) : Str := trimRight (trimLeft s)

/-- Leading decimal digits of `s`, if any (helper for `jsParseInt`). -/
def digitsVal (s : Str) : Option Nat :=
  let ds := s.takeWhile (fun c => c.isDigit)
  if ds = [] then none
  else some (ds.foldl (fun n c => n * 10 + (c.toNat - '0'.toNat)) 0)

/-- JS `parseInt(s)` restricted to ASCII decimal input: skip leading
whitespace, read an optional sign and then leading digits; `none` models `NaN`. -/
def jsParseInt (s : Str) : Option Int :=
  match s.dropWhile isWsChar with
  | '-' :: rest => (digitsVal rest).map (fun n => -(n : Int))
  | '+' :: rest => (digitsVal rest).map (fun n => (n : Int))
  | rest => (digitsVal rest).map (fun n => (n : Int))

/-! Section: the record regular expression

`curr.match(new RegExp("(.*)__BODY__([\\s\\S]+)?__FILES__([\\s\\S]+)?"))`:
leftmost match position, greedy `(.*)` (no line terminators) backtracking to
the last `__BODY__` of the line that still lets the rest match, greedy
optional `([\s\S]+)?` groups.  The result is `(header, body?, files?)` —
capture groups 1, 2 and 3 (`none` models a group that did not participate,
i.e. `undefined`). -/

/-- `some s` when `s` is non-empty, else `none`: a greedy `([\s\S]+)?` group
standing at the end of the pattern participates exactly when it can take at
least one character. -/
def optOfNonempty (s : Str) : Option Str :=
  if s = [] then none else some s

/-- Match `([\s\S]+)?__FILES__([\s\S]+)?` against the text following
`__BODY__`: the greedy middle group ends at the last `__FILES__` occurrence
at index ≥ 1 if there is one, otherwise `__FILES__` must start immediately. -/
def matchBodyFiles (afterB : Str) : Option (Option Str × Option Str) :=
  match ((occIdxs filesM afterB).filter (fun i => 1 ≤ i)).getLast? with
  | some p => some (some (afterB.take p), optOfNonempty (afterB.drop (p + filesM.length)))
  | none =>
    if filesM.isPrefixOf afterB then some (none, optOfNonempty (afterB.drop filesM.length))
    else none

/-- Attempt a match starting at index `i`: `(.*)` ranges over the line-local
prefix, longest first (greedy with backtracking), and `__BODY__` must follow. -/
def tryMatchAt (s : Str) (i : Nat) : Option (Str × Option Str × Option Str) :=
  let t := s.drop i
  let lineLen := (t.takeWhile (fun c => !(c == '\n' || c == '\r'))).length
  ((List.range (lineLen + 1)).reverse).findSome? (fun l =>
    let rest := t.drop l
    if bodyM.isPrefixOf rest then
      (matchBodyFiles (rest.drop bodyM.length)).map (fun bf => (t.take l, bf.1, bf.2))
    else none)

/-- The whole (unanchored) regex match: leftmost starting index wins. -/
def matchSegment (s : Str) : Option (Str × Option Str × Option Str) :=
  (List.range (s.length + 1)).findSome? (fun i => tryMatchAt s i)

/-! Section: the subject regular expression and `getCommitDetail` -/

/-- `subject.match("^(build|chore|...|test)(\\!?):")`: alternatives tried in
the key order of `gitConfig.commitTypes`; the greedy `(\!?)` tries `!` first.
Returns the matched type and the text of capture group 2. -/
def matchSubjectType (subj : Str) : Option (CommitType × Str) :=
  commitTypesList.findSome? (fun t =>
    if (t.name ++ "!:".data).isPrefixOf subj then some (t, "!".data)
    else if (t.name ++ ":".data).isPrefixOf subj then some (t, [])
    else none)

/-- `body?.toLowerCase().startsWith('breaking change:') ?? false`
(`Char.toLower` lowers ASCII letters, as relevant for the marker text). -/
def bodyBreaking (body : Option Str) : Bool :=
  match body with
  | none => false
  | some b => ("breaking change:".data).isPrefixOf (b.map Char.toLower)

/-- `getCommitDetail(subject, body)`.  A `none` subject models the `undefined`
value produced by destructuring a short header: `subject.match` then raises a
`TypeError`.  When the subject regex does not match, `type` is `undefined` and
`assertCommitType` throws. -/
def getCommitDetail (subject : Option Str) (body : Option Str) : Except JsError CommitDetail :=
  match subject with
  | none => .error JsError.subjectUndefined
  | some subj =>
    match matchSubjectType subj with
    | some tb => .ok { type := tb.1, breaking := (tb.2 == "!".data) || bodyBreaking body }
    | none => .error JsError.invalidCommitType

/-! Section: `parseCommits` -/

/-- JS `Set.prototype.add`: append if not already present. -/
def setAdd (xs : List Str) (x : Str) : List Str :=
  if x ∈ xs then xs else xs ++ [x]

/-- JS object property assignment on the `CommitGroup` accumulator: an
existing key keeps its position and has the commit appended to its array; a
new key is appended at the end (`Object.entries` order). -/
def upsert : List (GroupKey × List Commit) → GroupKey → Commit → List (GroupKey × List Commit)
  | [], k, c => [(k, [c])]
  | (k', cs) :: rest, k, c =>
    if k' = k then (k', cs ++ [c]) :: rest else (k', cs) :: upsert rest k c

/-- Association-list lookup on the `CommitGroup` object. -/
def lookupGroup : List (GroupKey × List Commit) → GroupKey → Option (List Commit)
  | [], _ => none
  | (k', cs) :: rest, k => if k' = k then some cs else lookupGroup rest k

/-- Parse one segment (one record) of the split log output into a `Commit`:
the body of the `reduce` callback of `parseCommits` up to and excluding the
grouping of the commit.  Error cases, in JS evaluation order: a failed regex
match leaves `header` `undefined` (`header.split` raises a `TypeError`); an
absent files group leaves `files` `undefined` (`files.split` raises a
`TypeError`); a header with fewer than four `__DELIM__` fields leaves
`subject` `undefined` (`subject.match` inside `getCommitDetail` raises a
`TypeError`); finally `getCommitDetail` may throw on an unrecognized type. -/
def parseRecord (curr : Str) : Except JsError Commit :=
  match matchSegment curr with
  | none => .error JsError.headerUndefined
  | some (header, bodyOpt, filesOpt) =>
    match filesOpt, jsSplit delimM header with
    | none, _ => .error JsError.filesUndefined
    | some files, commitHashAbbr :: authorName :: authorDateUnix :: subject :: _ =>
      match getCommitDetail (some subject) bodyOpt with
      | .error e => .error e
      | .ok detail =>
        .ok { commitHashAbbr := commitHashAbbr
              , authorName := authorName
              , authorDate := (jsParseInt authorDateUnix).map (fun n => n * 1000)
              , subject := subject
              , files := (jsSplit newlineM files).filter (fun f => !f.isEmpty)
              , type := detail.type
              , breaking := detail.breaking }
    | some _, _ => .error JsError.subjectUndefined

/-- One step of the `reduce`: parse the record, add its author to the
contributor set, and route the commit into the `breaking` bucket when its
`breaking` flag is set, else into its type bucket. -/
def parseStep (st : ParseResult) (curr : Str) : Except JsError ParseResult :=
  match parseRecord curr with
  | .error e => .error e
  | .ok commit =>
    let contributors := setAdd st.contributors commit.authorName
    if commit.breaking then
      .ok ⟨upsert st.commitGroups GroupKey.breaking commit, contributors⟩
    else
      .ok ⟨upsert st.commitGroups (GroupKey.typ commit.type) commit, contributors⟩

/-- The `reduce` over the split segments; a thrown error aborts the whole fold. -/
def parseFold : ParseResult → List Str → Except JsError ParseResult
  | st, [] => .ok st
  | st, curr :: rest =>
    match parseStep st curr with
    | .error e => .error e
    | .ok st' => parseFold st' rest

/-- `parseCommits(output)`: split on `__BEGIN__`, discard the segment before
the first marker (`toSpliced(0, 1)`), and reduce. -/
def parseCommits (output : Str) : Except JsError ParseResult :=
  parseFold ⟨[], []⟩ ((jsSplit beginM output).drop 1)

/-! Section: `renderChangeLogMarkdown` (the pure rendering on a parse result) -/

/-- One bullet: `- (${commit.commitHashAbbr}) ${commit.subject}`. -/
def bullet (c : Commit) : Str :=
  "- (".data ++ c.commitHashAbbr ++ ") ".data ++ c.subject

/-- `commits.map(bullet).join('\n')`. -/
def bulletLines (cs : List Commit) : Str :=
  List.intercalate "\n".data (cs.map bullet)

/-- `gitConfig.commitTypes[key].title` for the keys reachable in the render
loop (the `breaking` key is skipped by the loop's guard before the lookup;
in JS that lookup would be a `TypeError`). -/
def titleOf : GroupKey → Str
  | .breaking => []
  | .typ t => t.title

/-- One category section: `"\n## " + title + ":\n" + bullets`. -/
def sectionOf (k : GroupKey) (cs : List Commit) : Str :=
  "\n## ".data ++ titleOf k ++ ":\n".data ++ bulletLines cs

/-- The initial `output` after the `Breaking Changes` block:
`Array.isArray(commitGroups.breaking) && commitGroups.breaking.length > 0`. -/
def breakingPartOf (g : List (GroupKey × List Commit)) : Str :=
  match lookupGroup g GroupKey.breaking with
  | some bs => if 0 < bs.length then "## Breaking Changes:\n".data ++ bulletLines bs else []
  | none => []

/-- The trailing `Thanks` block: `"\n## Thanks:\n" + contributors.map(c => '@'+c).join(', ')`. -/
def thanksPartOf (contributors : List Str) : Str :=
  "\n## Thanks:\n".data ++ List.intercalate ", ".data (contributors.map (fun c => '@' :: c))

/-- The `for (const [key, commits] of Object.entries(commitGroups))` loop:
`Object.entries` iterates the association list in key-insertion order;
sections for the `breaking` key and for empty buckets are skipped. -/
def sectionsFold (g : List (GroupKey × List Commit)) (init : Str) : Str :=
  g.foldl (fun out kcs =>
    if kcs.1 = GroupKey.breaking ∨ kcs.2.length < 1 then out
    else out ++ sectionOf kcs.1 kcs.2) init

/-- The pure part of `renderChangeLogMarkdown`, applied to the result of
`getCommits`: breaking block, then the entries loop, then the thanks block,
then `output.trim()`. -/
def renderMarkdown (g : List (GroupKey × List Commit)) (contributors : List Str) : Str :=
  jsTrim (sectionsFold g (breakingPartOf g) ++ thanksPartOf contributors)

/-- Follows the spec's words, for comparison with `renderMarkdown` (claim C5):
category sections are emitted in the fixed enumeration order of the static
commit-type table (`build, chore, ci, docs, feat, fix, perf, refactor,
revert, style, test`), skipping the breaking category and empty buckets. -/
def renderMarkdownFixedOrder (g : List (GroupKey × List Commit)) (contributors : List Str) : Str :=
  let sections := (commitTypesList.filterMap (fun t =>
    match lookupGroup g (GroupKey.typ t) with
    | some cs => if cs.length < 1 then none else some (sectionOf (GroupKey.typ t) cs)
    | none => none)).flatten
  jsTrim (breakingPartOf g ++ sections ++ thanksPartOf contributors)

/-! Section: effects of `generateChangelog` and `createGitHubRelease`.

The external collaborators (the `git log` reader and the tag resolver) are
parameters; the observable interactions with the outside world are collected
in an effect trace, also when the call chain ends in a thrown error. -/

/-- Observable external interactions of the changelog flow. -/
inductive Effect where
  | gitLog (rangeFrom rangeTo : Str)
  | push
  | resolveTag (tag : Str)
  | httpCreateRelease (owner repo tagName targetCommitish body : Str)
deriving DecidableEq, Repr

/-- `getCommits({from, to})`: one log-reader invocation, then `parseCommits`. -/
def getCommitsM (gitLog : Str → Str → Str) (rangeFrom rangeTo : Str) :
    List Effect × Except JsError ParseResult :=
  ([Effect.gitLog rangeFrom rangeTo], parseCommits (gitLog rangeFrom rangeTo))

/-- `renderChangeLogMarkdown({from, to})` including its `getCommits` call. -/
def renderChangeLogMarkdown (gitLog : Str → Str → Str) (rangeFrom rangeTo : Str) :
    List Effect × Except JsError Str :=
  match getCommitsM gitLog rangeFrom rangeTo with
  | (tr, .error e) => (tr, .error e)
  | (tr, .ok r) => (tr, .ok (renderMarkdown r.commitGroups r.contributors))

/-- `createGitHubRelease`: throws before any HTTP interaction when
`process.env.GITHUB_TOKEN` is falsy (`undefined` or the empty string);
otherwise posts the release-creation request. -/
def createGitHubRelease (ghToken : Option Str) (owner repo tag commitHash body : Str) :
    List Effect × Except JsError Unit :=
  if ghToken = none ∨ ghToken = some [] then ([], .error JsError.missingToken)
  else ([Effect.httpCreateRelease owner repo tag commitHash body], .ok ())

/-- `generateChangelog({from, to, owner, repo, dryRun})`: render with upper
bound `dryRun ? 'HEAD' : to + '^'`; in dry-run mode stop after rendering,
otherwise push, resolve the tag to its commit hash and create the release. -/
def generateChangelog (gitLog : Str → Str → Str) (tagHash : Str → Str) (ghToken : Option Str)
    (rangeFrom rangeTo owner repo : Str) (dryRun : Bool) :
    List Effect × Except JsError Unit :=
  let upper := if dryRun then "HEAD".data else rangeTo ++ "^".data
  match renderChangeLogMarkdown gitLog rangeFrom upper with
  | (tr, .error e) => (tr, .error e)
  | (tr, .ok markdown) =>
    if dryRun then (tr, .ok ())
    else
      let rel := createGitHubRelease ghToken owner repo rangeTo (tagHash rangeTo) markdown
      (tr ++ [Effect.push, Effect.resolveTag rangeTo] ++ rel.1, rel.2)

/-! Section: specification-side definitions used by the theorems. -/

/-- The bucket key a commit is routed to by the `reduce`. -/
def keyFits : GroupKey → Commit → Prop
  | .breaking, c => c.breaking = true
  | .typ t, c => c.breaking = false ∧ c.type = t

/-- Every commit stored in a bucket belongs there: the `breaking` bucket holds
only breaking commits, a type bucket holds only non-breaking commits of that
type. -/
def bucketsTyped (g : List (GroupKey × List Commit)) : Prop :=
  ∀ p ∈ g, ∀ c ∈ p.2, keyFits p.1 c

/-- Total number of commits stored across all buckets. -/
def sumBuckets (g : List (GroupKey × List Commit)) : Nat :=
  (g.map (fun p => p.2.length)).sum

/-- The subject begins with one of the eleven enumerated type names followed
by an optional `!` and a colon. -/
def subjectHasValidType (subj : Str) : Prop :=
  ∃ t ∈ commitTypesList,
    (t.name ++ ":".data).isPrefixOf subj = true ∨ (t.name ++ "!:".data).isPrefixOf subj = true

instance (subj : Str) : Decidable (subjectHasValidType subj) := by
  unfold subjectHasValidType
  exact List.decidableBEx _ commitTypesList

/-- The concatenation, in key-insertion order, of the sections the render
loop emits (skipping the breaking key and empty buckets). -/
def sectionsListOf (g : List (GroupKey × List Commit)) : Str :=
  (g.filterMap (fun kcs =>
    if kcs.1 = GroupKey.breaking ∨ kcs.2.length < 1 then none
    else some (sectionOf kcs.1 kcs.2))).flatten

/-! Section: concrete example inputs used by witnesses and counterexamples. -/

/-- Two well-formed records: `feat: add X` by alice and `fix!: patch Y` by bob. -/
def exBlob : Str :=
  ("__BEGIN__aaa__DELIM__alice__DELIM__100__DELIM__feat: add X__BODY____FILES__\nf\n" ++
    "__BEGIN__bbb__DELIM__bob__DELIM__200__DELIM__fix!: patch Y__BODY____FILES__\ng").data

/-- The two segments `exBlob` splits into. -/
def exSeg1 : Str := ("aaa__DELIM__alice__DELIM__100__DELIM__feat: add X__BODY____FILES__\nf\n").data

/-- Second segment of `exBlob`. -/
def exSeg2 : Str := ("bbb__DELIM__bob__DELIM__200__DELIM__fix!: patch Y__BODY____FILES__\ng").data

/-- One record whose subject type `oops` is not in the enumeration. -/
def oopsBlob : Str :=
  ("__BEGIN__abc__DELIM__alice__DELIM__100__DELIM__oops: did a thing__BODY__b__FILES__\nf").data

/-- The single segment of `oopsBlob`. -/
def oopsSeg : Str :=
  ("abc__DELIM__alice__DELIM__100__DELIM__oops: did a thing__BODY__b__FILES__\nf").data

/-- Header part of `oopsSeg` (capture group 1 of the record regex). -/
def oopsHeader : Str := ("abc__DELIM__alice__DELIM__100__DELIM__oops: did a thing").data

/-- A record whose header has five `__DELIM__`-separated fields. -/
def fiveFieldSeg : Str :=
  ("a__DELIM__al__DELIM__1__DELIM__feat: x__DELIM__extra__BODY__b__FILES__\nf").data

/-- `fiveFieldSeg` as a whole log blob. -/
def fiveFieldBlob : Str := ("__BEGIN__").data ++ fiveFieldSeg

/-- Header part of `fiveFieldSeg`. -/
def fiveFieldHeader : Str := ("a__DELIM__al__DELIM__1__DELIM__feat: x__DELIM__extra").data

/-- The commit the reference implementation builds from `fiveFieldSeg`. -/
def fiveFieldCommit : Commit :=
  { commitHashAbbr := ("a").data
    , authorName := ("al").data
    , authorDate := some 1000
    , subject := ("feat: x").data
    , files := [("f").data]
    , type := CommitType.feat
    , breaking := false }

/-- A record whose header has only three `__DELIM__`-separated fields. -/
def threeFieldSeg : Str := ("a__DELIM__al__DELIM__1__BODY__b__FILES__\nf").data

/-- `threeFieldSeg` as a whole log blob. -/
def threeFieldBlob : Str := ("__BEGIN__").data ++ threeFieldSeg

/-- Header part of `threeFieldSeg`. -/
def threeFieldHeader : Str := ("a__DELIM__al__DELIM__1").data

/-- A record that is well formed except that its files segment is absent
entirely (nothing at all follows the `__FILES__` marker). -/
def filesAbsentBlob : Str :=
  ("__BEGIN__abc__DELIM__alice__DELIM__100__DELIM__feat: add X__BODY__hello__FILES__").data

/-- A record with an absent body and a files segment consisting of a bare
newline (so the file list is empty). -/
def bodyAbsentSeg : Str :=
  ("abc__DELIM__alice__DELIM__100__DELIM__feat: add X__BODY____FILES__\n").data

/-- Two records hitting the `fix` bucket before the `feat` bucket. -/
def orderBlob : Str :=
  ("__BEGIN__aaa__DELIM__alice__DELIM__100__DELIM__fix: a__BODY____FILES__\nf\n" ++
    "__BEGIN__bbb__DELIM__bob__DELIM__200__DELIM__feat: b__BODY____FILES__\ng").data

/-- What the reference renderer prints for `orderBlob` (insertion order:
`Fixes` before `Features`). -/
def orderInsertionOut : Str :=
  ("## Fixes:\n- (aaa) fix: a\n## Features:\n- (bbb) feat: b\n## Thanks:\n@alice, @bob").data

/-- What a fixed-table-order renderer prints for `orderBlob` (`Features`
before `Fixes`). -/
def orderFixedOut : Str :=
  ("## Features:\n- (bbb) feat: b\n## Fixes:\n- (aaa) fix: a\n## Thanks:\n@alice, @bob").data

/-- A breaking commit, used to instantiate the C7 theorem. -/
def exBreakCommit : Commit :=
  { commitHashAbbr := ("bbb").data
    , authorName := ("bob").data
    , authorDate := some 200000
    , subject := ("fix!: patch Y").data
    , files := [("g").data]
    , type := CommitType.fix
    , breaking := true }

/-- What the reference renderer prints for `exBlob`. -/
def exRenderOut : Str :=
  ("## Breaking Changes:\n- (bbb) fix!: patch Y\n## Features:\n- (aaa) feat: add X\n" ++
    "## Thanks:\n@alice, @bob").data

/-! Section: helper lemmas about the fold, the grouping and the split. -/

lemma parseFold_cons (st : ParseResult) (s : Str) (rest : List Str) :
    parseFold st (s :: rest) =
      match parseStep st s with
      | .error e => .error e
      | .ok st' => parseFold st' rest := rfl

lemma parseStep_of_record_ok {curr : Str} {c : Commit} (st : ParseResult)
    (h : parseRecord curr = .ok c) :
    parseStep st curr =
      .ok ⟨upsert st.commitGroups (if c.breaking then GroupKey.breaking else GroupKey.typ c.type) c,
           setAdd st.contributors c.authorName⟩ := by
  unfold parseStep
  rw [h]
  by_cases hb : c.breaking <;> simp [hb]

lemma parseStep_of_record_err {curr : Str} {e : JsError} (st : ParseResult)
    (h : parseRecord curr = .error e) : parseStep st curr = .error e := by
  unfold parseStep
  rw [h]

lemma parseFold_ok_mem : ∀ (segs : List Str) (st r : ParseResult),
    parseFold st segs = .ok r → ∀ seg ∈ segs, ∃ c, parseRecord seg = .ok c := by
  intro segs
  induction segs with
  | nil =>
    intro st r _ seg hm
    cases hm
  | cons s rest ih =>
    intro st r h seg hm
    rw [parseFold_cons] at h
    cases hpr : parseRecord s with
    | error e =>
      rw [parseStep_of_record_err st hpr] at h
      cases h
    | ok c =>
      rw [parseStep_of_record_ok st hpr] at h
      rcases List.mem_cons.mp hm with rfl | hm'
      · exact ⟨c, hpr⟩
      · exact ih _ r h seg hm'

lemma parseCommits_err_of_bad_record {output seg : Str} {segs : List Str}
    (hsplit : (jsSplit beginM output).drop 1 = segs) (hmem : seg ∈ segs)
    (herr : ∀ c, parseRecord seg ≠ .ok c) : ∃ e, parseCommits output = .error e := by
  cases h : parseCommits output with
  | error e => exact ⟨e, rfl⟩
  | ok r =>
    unfold parseCommits at h
    rw [hsplit] at h
    obtain ⟨c, hc⟩ := parseFold_ok_mem segs ⟨[], []⟩ r h seg hmem
    exact absurd hc (herr c)

lemma upsert_sumBuckets (g : List (GroupKey × List Commit)) (k : GroupKey) (c : Commit) :
    sumBuckets (upsert g k c) = sumBuckets g + 1 := by
  induction g with
  | nil => simp [upsert, sumBuckets]
  | cons p rest ih =>
    obtain ⟨k', cs⟩ := p
    by_cases hk : k' = k
    · simp [upsert, hk, sumBuckets]
      omega
    · simp only [upsert, if_neg hk, sumBuckets, List.map_cons, List.sum_cons]
      simp only [sumBuckets] at ih
      omega

lemma upsert_typed {g : List (GroupKey × List Commit)} {k : GroupKey} {c : Commit}
    (hg : bucketsTyped g) (hc : keyFits k c) : bucketsTyped (upsert g k c) := by
  induction g with
  | nil =>
    intro p hp c' hc'
    simp [upsert] at hp
    subst hp
    simp at hc'
    subst hc'
    exact hc
  | cons q rest ih =>
    obtain ⟨k', cs⟩ := q
    by_cases hk : k' = k
    · intro p hp c' hc'
      simp only [upsert, if_pos hk] at hp
      rcases List.mem_cons.mp hp with rfl | hp'
      · rcases List.mem_append.mp hc' with h | h
        · exact hg (k', cs) (by simp) c' h
        · simp at h
          subst h
          subst hk
          exact hc
      · exact hg p (by simp [hp']) c' hc'
    · intro p hp c' hc'
      simp only [upsert, if_neg hk] at hp
      rcases List.mem_cons.mp hp with rfl | hp'
      · exact hg (k', cs) (by simp) c' hc'
      · exact ih (fun q hq => hg q (by simp [hq])) p hp' c' hc'

lemma upsert_keys (g : List (GroupKey × List Commit)) (k : GroupKey) (c : Commit) :
    (upsert g k c).map Prod.fst =
      if k ∈ g.map Prod.fst then g.map Prod.fst else g.map Prod.fst ++ [k] := by
  induction g with
  | nil => simp [upsert]
  | cons p rest ih =>
    obtain ⟨k', cs⟩ := p
    by_cases hk : k' = k
    · subst hk
      simp [upsert]
    · simp only [upsert, if_neg hk, List.map_cons, ih]
      have hne : ¬ k = k' := fun h => hk h.symm
      by_cases hm : k ∈ rest.map Prod.fst
      · simp [hm, hne]
      · simp [hm, hne]

lemma upsert_nodup {g : List (GroupKey × List Commit)} (k : GroupKey) (c : Commit)
    (h : (g.map Prod.fst).Nodup) : ((upsert g k c).map Prod.fst).Nodup := by
  rw [upsert_keys]
  by_cases hm : k ∈ g.map Prod.fst
  · simpa [hm] using h
  · simp only [if_neg hm]
    exact List.Nodup.append h (List.nodup_singleton k) (by simpa [List.disjoint_singleton] using hm)

lemma parseFold_props : ∀ (segs : List Str) (st : ParseResult),
    (∀ seg ∈ segs, ∃ c, parseRecord seg = .ok c) →
    bucketsTyped st.commitGroups → (st.commitGroups.map Prod.fst).Nodup →
    ∃ r, parseFold st segs = .ok r ∧
      sumBuckets r.commitGroups = sumBuckets st.commitGroups + segs.length ∧
      bucketsTyped r.commitGroups ∧ (r.commitGroups.map Prod.fst).Nodup := by
  intro segs
  induction segs with
  | nil =>
    intro st _ ht hn
    exact ⟨st, rfl, by simp, ht, hn⟩
  | cons s rest ih =>
    intro st hok ht hn
    obtain ⟨c, hc⟩ := hok s (by simp)
    rw [parseFold_cons, parseStep_of_record_ok st hc]
    have hfits : keyFits (if c.breaking then GroupKey.breaking else GroupKey.typ c.type) c := by
      by_cases hb : c.breaking <;> simp [hb, keyFits]
    obtain ⟨r, hr, hsum, htyp, hnd⟩ :=
      ih ⟨upsert st.commitGroups (if c.breaking then GroupKey.breaking else GroupKey.typ c.type) c,
          setAdd st.contributors c.authorName⟩
        (fun seg hs => hok seg (by simp [hs]))
        (upsert_typed ht hfits)
        (upsert_nodup _ c hn)
    refine ⟨r, hr, ?_, htyp, hnd⟩
    rw [hsum]
    simp only [upsert_sumBuckets]
    simp [List.length_cons]
    omega

lemma splitGo_no_occ (sep : Str) : ∀ (fuel : Nat) (s acc : Str), s.length ≤ fuel →
    (∀ i, ¬ sep.isPrefixOf (s.drop i) = true) → splitGo sep fuel s acc = [acc.reverse ++ s] := by
  intro fuel
  induction fuel with
  | zero =>
    intro s acc hl _
    cases s with
    | nil => simp [splitGo]
    | cons c r => simp at hl
  | succ f ih =>
    intro s acc hl hno
    cases s with
    | nil => simp [splitGo]
    | cons c r =>
      have h0 : ¬ sep.isPrefixOf (c :: r) = true := by simpa using hno 0
      simp only [splitGo, if_neg h0]
      rw [ih r (c :: acc) (by simpa using Nat.le_of_succ_le_succ hl)
        (fun i => by simpa using hno (i + 1))]
      simp

lemma no_occ_of_occursIn_false {pat output : Str} (hne : pat ≠ [])
    (h : occursIn pat output = false) : ∀ i, ¬ pat.isPrefixOf (output.drop i) = true := by
  intro i hp
  by_cases hi : i ≤ output.length
  · exact (List.any_eq_false.mp h) i (List.mem_range.mpr (by omega)) hp
  · rw [List.drop_eq_nil_of_le (by omega)] at hp
    cases pat with
    | nil => exact hne rfl
    | cons a l => simp [List.isPrefixOf] at hp

lemma jsSplit_no_occ {pat output : Str} (hne : pat ≠ []) (h : occursIn pat output = false) :
    jsSplit pat output = [output] := by
  unfold jsSplit
  rw [if_neg hne, splitGo_no_occ pat output.length output [] le_rfl (no_occ_of_occursIn_false hne h)]
  simp

lemma matchSubjectType_spec {subj : Str} {t : CommitType} {bang : Str}
    (h : matchSubjectType subj = some (t, bang)) :
    (bang = "!".data ∧ (t.name ++ "!:".data).isPrefixOf subj = true) ∨
    (bang = [] ∧ ¬ (t.name ++ "!:".data).isPrefixOf subj = true ∧
      (t.name ++ ":".data).isPrefixOf subj = true) := by
  obtain ⟨a, _, hf⟩ := List.exists_of_findSome?_eq_some h
  by_cases h1 : (a.name ++ "!:".data).isPrefixOf subj
  · rw [if_pos h1] at hf
    simp only [Option.some.injEq, Prod.mk.injEq] at hf
    obtain ⟨rfl, rfl⟩ := hf
    exact Or.inl ⟨rfl, h1⟩
  · rw [if_neg h1] at hf
    by_cases h2 : (a.name ++ ":".data).isPrefixOf subj
    · rw [if_pos h2] at hf
      simp only [Option.some.injEq, Prod.mk.injEq] at hf
      obtain ⟨rfl, rfl⟩ := hf
      exact Or.inr ⟨rfl, h1, h2⟩
    · rw [if_neg h2] at hf
      cases hf

lemma matchSubjectType_eq_none_iff (subj : Str) :
    matchSubjectType subj = none ↔ ¬ subjectHasValidType subj := by
  unfold matchSubjectType subjectHasValidType
  rw [List.findSome?_eq_none_iff]
  constructor
  · rintro h ⟨t, ht, hp⟩
    have := h t ht
    rcases hp with hp | hp
    · by_cases h1 : (t.name ++ "!:".data).isPrefixOf subj <;> simp [h1, hp] at this
    · simp [hp] at this
  · intro h t ht
    by_cases h1 : (t.name ++ "!:".data).isPrefixOf subj
    · exact absurd ⟨t, ht, Or.inr h1⟩ h
    by_cases h2 : (t.name ++ ":".data).isPrefixOf subj
    · exact absurd ⟨t, ht, Or.inl h2⟩ h
    · simp [h1, h2]

lemma getCommitDetail_err_of_bad {subj : Str} (body : Option Str)
    (hbad : ¬ subjectHasValidType subj) :
    getCommitDetail (some subj) body = .error JsError.invalidCommitType := by
  simp only [getCommitDetail]
  rw [(matchSubjectType_eq_none_iff subj).mpr hbad]

lemma cons_four_of_getElem3 {α : Type} {l : List α} {x : α} (h : l[3]? = some x) :
    ∃ a b c rest, l = a :: b :: c :: x :: rest := by
  rcases l with _ | ⟨a, _ | ⟨b, _ | ⟨c, _ | ⟨d, rest⟩⟩⟩⟩ <;> simp at h
  exact ⟨a, b, c, rest, by rw [h]⟩

lemma sectionsListOf_cons (p : GroupKey × List Commit) (rest : List (GroupKey × List Commit)) :
    sectionsListOf (p :: rest) =
      (if p.1 = GroupKey.breaking ∨ p.2.length < 1 then [] else sectionOf p.1 p.2) ++
        sectionsListOf rest := by
  unfold sectionsListOf
  rw [List.filterMap_cons]
  by_cases hc : p.1 = GroupKey.breaking ∨ p.2.length < 1
  · rw [if_pos hc, if_pos hc]
    simp
  · rw [if_neg hc, if_neg hc]
    simp

lemma sectionsFold_eq (g : List (GroupKey × List Commit)) : ∀ init : Str,
    sectionsFold g init = init ++ sectionsListOf g := by
  induction g with
  | nil => intro init; simp [sectionsFold, sectionsListOf]
  | cons p rest ih =>
    intro init
    rw [sectionsListOf_cons]
    by_cases hc : p.1 = GroupKey.breaking ∨ p.2.length < 1
    · simp only [sectionsFold, List.foldl_cons, if_pos hc] at *
      rw [ih init]
      simp
    · simp only [sectionsFold, List.foldl_cons, if_neg hc] at *
      rw [ih (init ++ sectionOf p.1 p.2)]
      simp

lemma renderMarkdown_eq (g : List (GroupKey × List Commit)) (contributors : List Str) :
    renderMarkdown g contributors =
      jsTrim (breakingPartOf g ++ (sectionsListOf g ++ thanksPartOf contributors)) := by
  unfold renderMarkdown
  rw [sectionsFold_eq g (breakingPartOf g)]
  rw [List.append_assoc]

lemma trimLeft_cons_of_not_ws {c : Char} (h : isWsChar c = false) (xs : Str) :
    trimLeft (c :: xs) = c :: xs := by
  simp [trimLeft, List.dropWhile_cons, h]

lemma trimRight_append_of_mem {q : Str} (p : Str) {c : Char} (hm : c ∈ q)
    (hw : isWsChar c = false) : trimRight (p ++ q) = p ++ trimRight q := by
  unfold trimRight
  rw [List.reverse_append, List.dropWhile_append]
  have hne : (q.reverse.dropWhile isWsChar).isEmpty = false := by
    rcases hq : q.reverse.dropWhile isWsChar with _ | ⟨a, l⟩
    · have : ∀ x ∈ q.reverse, isWsChar x := List.dropWhile_eq_nil_iff.mp hq
      have := this c (List.mem_reverse.mpr hm)
      rw [hw] at this
      cases this
    · rfl
  rw [if_neg (by simp [hne])]
  rw [List.reverse_append, List.reverse_reverse]

lemma mem_append_of_mem_right {α : Type} {c : α} {q : List α} (p : List α) (h : c ∈ q) :
    c ∈ p ++ q := List.mem_append_right p h

/-! Section: claim theorems. -/

/-- C9: for every invocation of `createGitHubRelease` with the bearer
credential absent from the environment, the call fails with an error and its
effect trace is empty — in particular the HTTP release-creation request is
never issued, so no remote mutation occurs. -/
theorem createGitHubRelease_missing_token (owner repo tag commitHash body : Str) :
    createGitHubRelease none owner repo tag commitHash body =
      ([], .error JsError.missingToken) := by
  simp [createGitHubRelease]

/-- C8: with `dryRun` true, `generateChangelog` emits exactly one external
effect — the log-reader query with upper bound `HEAD` — and in particular no
push and no release creation; with `dryRun` false, the log-reader query uses
upper bound `to ++ "^"` (the parent of the release tag). -/
theorem generateChangelog_dryRun_frame (gitLog : Str → Str → Str) (tagHash : Str → Str)
    (ghToken : Option Str) (rangeFrom rangeTo owner repo : Str) :
    (generateChangelog gitLog tagHash ghToken rangeFrom rangeTo owner repo true).1 =
        [Effect.gitLog rangeFrom (("HEAD").data)] ∧
    Effect.push ∉ (generateChangelog gitLog tagHash ghToken rangeFrom rangeTo owner repo true).1 ∧
    (∀ o r t tc b, Effect.httpCreateRelease o r t tc b ∉
        (generateChangelog gitLog tagHash ghToken rangeFrom rangeTo owner repo true).1) ∧
    (∃ restTrace,
        (generateChangelog gitLog tagHash ghToken rangeFrom rangeTo owner repo false).1 =
          Effect.gitLog rangeFrom (rangeTo ++ ("^").data) :: restTrace) := by
  have htrue : (generateChangelog gitLog tagHash ghToken rangeFrom rangeTo owner repo true).1 =
      [Effect.gitLog rangeFrom (("HEAD").data)] := by
    cases hp : parseCommits (gitLog rangeFrom (("HEAD").data)) <;>
      simp [generateChangelog, renderChangeLogMarkdown, getCommitsM, hp]
  refine ⟨htrue, by simp [htrue], by intro o r t tc b; simp [htrue], ?_⟩
  cases hp : parseCommits (gitLog rangeFrom (rangeTo ++ ("^").data)) with
  | error e =>
    exact ⟨[], by simp [generateChangelog, renderChangeLogMarkdown, getCommitsM, hp]⟩
  | ok r =>
    exact ⟨[Effect.push, Effect.resolveTag rangeTo] ++
        (createGitHubRelease ghToken owner repo rangeTo (tagHash rangeTo)
          (renderMarkdown r.commitGroups r.contributors)).1,
      by simp [generateChangelog, renderChangeLogMarkdown, getCommitsM, hp]⟩

/-- C10: `parseCommits` succeeds with an empty group mapping and an empty
contributor set on the empty blob, and more generally on any blob in which
the begin marker does not occur. -/
theorem parseCommits_no_marker :
    parseCommits ([] : Str) = .ok ⟨[], []⟩ ∧
    ∀ output : Str, occursIn beginM output = false → parseCommits output = .ok ⟨[], []⟩ := by
  constructor
  · rfl
  · intro output h
    unfold parseCommits
    rw [jsSplit_no_occ (by decide) h]
    rfl

/-- Witness for C10 at a concrete non-empty blob without the begin marker. -/
theorem parseCommits_no_marker_witness :
    parseCommits (("no markers here").data) = .ok ⟨[], []⟩ :=
  parseCommits_no_marker.2 (("no markers here").data) (by decide)

/-- C4 (code bug): a record that is well formed except that its files
segment is absent entirely makes `parseCommits` fail (the optional third
regex group is `undefined` and `files.split` raises a `TypeError`), although
the regex itself marks the group optional and the spec promises an empty
file list.  A record with an absent body and a newline-only files segment
does succeed with an empty file list. -/
theorem parseCommits_files_absent_bug :
    parseCommits filesAbsentBlob = .error JsError.filesUndefined ∧
    (∃ c, parseRecord bodyAbsentSeg = .ok c ∧ c.files = []) :=
  ⟨rfl, ⟨_, rfl, rfl⟩⟩

/-- C1: on a well-formed blob — one whose begin-marker split yields segments
that each parse to a commit — `parseCommits` succeeds, the bucket lengths sum
to the number of records, every bucket holds only commits that belong there
(breaking commits only in the breaking bucket, non-breaking commits only in
their own type bucket), and no bucket key is duplicated, so each commit is
counted in exactly one bucket. -/
theorem parseCommits_bucket_partition (output : Str) (segs : List Str)
    (hsplit : (jsSplit beginM output).drop 1 = segs)
    (hok : ∀ seg ∈ segs, ∃ c, parseRecord seg = .ok c) :
    ∃ r, parseCommits output = .ok r ∧
      sumBuckets r.commitGroups = segs.length ∧
      bucketsTyped r.commitGroups ∧
      (r.commitGroups.map Prod.fst).Nodup := by
  unfold parseCommits
  rw [hsplit]
  obtain ⟨r, hr, hs, ht, hn⟩ :=
    parseFold_props segs ⟨[], []⟩ hok (by intro p hp; cases hp) (by simp)
  exact ⟨r, hr, by simpa [sumBuckets] using hs, ht, hn⟩

/-- Witness for C1 at a concrete two-record blob. -/
theorem parseCommits_bucket_partition_witness :
    ∃ r, parseCommits exBlob = .ok r ∧
      sumBuckets r.commitGroups = 2 ∧
      bucketsTyped r.commitGroups ∧
      (r.commitGroups.map Prod.fst).Nodup :=
  parseCommits_bucket_partition exBlob [exSeg1, exSeg2] rfl
    (by
      intro seg h
      simp only [List.mem_cons, List.not_mem_nil, or_false] at h
      rcases h with rfl | rfl
      · exact ⟨_, rfl⟩
      · exact ⟨_, rfl⟩)

/-- C2: a record whose parsed subject does not begin with one of the eleven
enumerated type names followed by an optional `!` and a colon makes the whole
`parseCommits` invocation fail with an error: no partial result is returned
and the record is not skipped. -/
theorem parseCommits_unknown_type_fails (output seg header subj : Str) (segs : List Str)
    (bodyOpt filesOpt : Option Str)
    (hsplit : (jsSplit beginM output).drop 1 = segs) (hmem : seg ∈ segs)
    (hm : matchSegment seg = some (header, bodyOpt, filesOpt))
    (hsubj : (jsSplit delimM header)[3]? = some subj)
    (hbad : ¬ subjectHasValidType subj) :
    ∃ e, parseCommits output = .error e := by
  apply parseCommits_err_of_bad_record hsplit hmem
  intro c hc
  obtain ⟨a, b, d, rest, hfields⟩ := cons_four_of_getElem3 hsubj
  cases filesOpt with
  | none =>
    simp only [parseRecord, hm] at hc
    cases hc
  | some files =>
    simp only [parseRecord, hm, hfields] at hc
    rw [getCommitDetail_err_of_bad bodyOpt hbad] at hc
    cases hc

/-- Witness for C2 at a concrete record with subject `oops: did a thing`. -/
theorem parseCommits_unknown_type_fails_witness : ∃ e, parseCommits oopsBlob = .error e :=
  parseCommits_unknown_type_fails oopsBlob oopsSeg oopsHeader (("oops: did a thing").data)
    [oopsSeg] (some (("b").data)) (some (("\nf").data)) rfl (by simp) rfl rfl (by decide)

/-- C3 counterexample: a record whose header splits into five fields — not
exactly four — is not a fatal parse error: `parseCommits` succeeds and builds
a commit from the first four fields, ignoring the extra one. -/
theorem parseCommits_five_fields_ok :
    matchSegment fiveFieldSeg =
      some (fiveFieldHeader, some (("b").data), some (("\nf").data)) ∧
    (jsSplit delimM fiveFieldHeader).length = 5 ∧
    parseRecord fiveFieldSeg = .ok fiveFieldCommit ∧
    parseCommits fiveFieldBlob =
      .ok ⟨[(GroupKey.typ CommitType.feat, [fiveFieldCommit])], [("al").data]⟩ :=
  ⟨rfl, rfl, rfl, rfl⟩

/-- C3 (amended): a record whose header splits into fewer than four
delimiter-separated fields makes the whole `parseCommits` invocation fail
with an error (the missing subject is `undefined` and `subject.match` raises
a `TypeError`); headers with more than four fields are not an error. -/
theorem parseCommits_short_header_fails (output seg header : Str) (segs : List Str)
    (bodyOpt filesOpt : Option Str)
    (hsplit : (jsSplit beginM output).drop 1 = segs) (hmem : seg ∈ segs)
    (hm : matchSegment seg = some (header, bodyOpt, filesOpt))
    (hlen : (jsSplit delimM header).length < 4) :
    ∃ e, parseCommits output = .error e := by
  apply parseCommits_err_of_bad_record hsplit hmem
  intro c hc
  cases filesOpt with
  | none =>
    simp only [parseRecord, hm] at hc
    cases hc
  | some files =>
    rcases hfl : jsSplit delimM header with _ | ⟨a, _ | ⟨b, _ | ⟨d, _ | ⟨e', rest⟩⟩⟩⟩
    · simp only [parseRecord, hm, hfl] at hc
      cases hc
    · simp only [parseRecord, hm, hfl] at hc
      cases hc
    · simp only [parseRecord, hm, hfl] at hc
      cases hc
    · simp only [parseRecord, hm, hfl] at hc
      cases hc
    · rw [hfl] at hlen
      simp at hlen
      omega

/-- Witness for the amended C3 at a concrete three-field header. -/
theorem parseCommits_short_header_fails_witness :
    ∃ e, parseCommits threeFieldBlob = .error e :=
  parseCommits_short_header_fails threeFieldBlob threeFieldSeg threeFieldHeader
    [threeFieldSeg] (some (("b").data)) (some (("\nf").data)) rfl (by simp) rfl (by decide)

/-- C5 (amended): the renderer emits the non-breaking category sections in
the key-insertion order of `commitGroups` (the order categories were first
inserted), skipping the breaking key and empty buckets, each section titled
with the category's display title, followed by the thanks block, and trims
the result. -/
theorem renderMarkdown_insertion_order (g : List (GroupKey × List Commit))
    (contributors : List Str) :
    renderMarkdown g contributors =
      jsTrim (breakingPartOf g ++ (sectionsListOf g ++ thanksPartOf contributors)) :=
  renderMarkdown_eq g contributors

/-- C5 counterexample: for a log whose records hit the `fix` bucket before
the `feat` bucket, the renderer emits `Fixes` before `Features` (insertion
order), which differs from the fixed static-table enumeration order the claim
asserts (`Features` before `Fixes`). -/
theorem renderMarkdown_not_fixed_order :
    (∃ r, parseCommits orderBlob = .ok r ∧
      renderMarkdown r.commitGroups r.contributors = orderInsertionOut ∧
      renderMarkdownFixedOrder r.commitGroups r.contributors = orderFixedOut) ∧
    orderInsertionOut ≠ orderFixedOut :=
  ⟨⟨_, rfl, rfl, rfl⟩, by decide⟩

/-- C6: a parsed commit's breaking flag is true iff the subject's matched
type prefix carries a trailing `!` before the colon, or the body exists and
its lowercase form starts with `breaking change:`; and a commit whose
breaking flag is true is routed into the breaking bucket (and only there),
independent of the body. -/
theorem commit_breaking_iff :
    (∀ (subj : Str) (bodyOpt : Option Str) (d : CommitDetail),
        getCommitDetail (some subj) bodyOpt = .ok d →
        (d.breaking = true ↔
          (d.type.name ++ ("!:").data).isPrefixOf subj = true ∨ bodyBreaking bodyOpt = true)) ∧
    (∀ (st : ParseResult) (seg : Str) (c : Commit),
        parseRecord seg = .ok c → c.breaking = true →
        parseStep st seg = .ok ⟨upsert st.commitGroups GroupKey.breaking c,
          setAdd st.contributors c.authorName⟩) := by
  constructor
  · intro subj bodyOpt d h
    simp only [getCommitDetail] at h
    cases hm : matchSubjectType subj with
    | none =>
      rw [hm] at h
      cases h
    | some tb =>
      obtain ⟨t, bang⟩ := tb
      rw [hm] at h
      injection h with h'
      subst h'
      rcases matchSubjectType_spec hm with ⟨hb, hp⟩ | ⟨hb, hnp, _⟩
      · subst hb
        simp [hp]
      · subst hb
        have hnp' : (t.name ++ ("!:").data).isPrefixOf subj = false :=
          Bool.eq_false_iff.mpr (fun hx => hnp hx)
        simp [hnp']
  · intro st seg c hpr hb
    rw [parseStep_of_record_ok st hpr]
    simp [hb]

/-- Witness for C6 at a concrete subject carrying the `!` marker and no body. -/
theorem commit_breaking_iff_witness :
    (({ type := CommitType.fix, breaking := true } : CommitDetail).breaking = true ↔
      ((CommitType.fix).name ++ ("!:").data).isPrefixOf (("fix!: patch Y").data) = true ∨
        bodyBreaking none = true) :=
  commit_breaking_iff.1 (("fix!: patch Y").data) none ⟨CommitType.fix, true⟩ rfl

/-- C7: whenever the breaking bucket is non-empty the rendered document
begins with the `Breaking Changes` section — emitted before every category
section — containing one `- (hashAbbr) subject` bullet per breaking commit in
original order; and on the two-record example (`feat: add X`, `fix!: patch Y`)
the rendered output places `Breaking Changes` before `Features`. -/
theorem breaking_section_first :
    (∀ (g : List (GroupKey × List Commit)) (contributors : List Str) (bs : List Commit),
        lookupGroup g GroupKey.breaking = some bs → bs ≠ [] →
        ∃ restOut, renderMarkdown g contributors =
          ("## Breaking Changes:\n").data ++ (bulletLines bs ++ restOut)) ∧
    (∃ r, parseCommits exBlob = .ok r ∧
        renderMarkdown r.commitGroups r.contributors = exRenderOut) := by
  constructor
  · intro g contributors bs hlk hne
    rw [renderMarkdown_eq]
    have hbrk : breakingPartOf g = ("## Breaking Changes:\n").data ++ bulletLines bs := by
      simp only [breakingPartOf, hlk]
      rw [if_pos (List.length_pos.mpr hne)]
    rw [hbrk]
    refine ⟨trimRight (sectionsListOf g ++ thanksPartOf contributors), ?_⟩
    unfold jsTrim
    have h1 : trimLeft (((("## Breaking Changes:\n").data ++ bulletLines bs) : Str) ++
        (sectionsListOf g ++ thanksPartOf contributors)) =
        ((("## Breaking Changes:\n").data ++ bulletLines bs) : Str) ++
          (sectionsListOf g ++ thanksPartOf contributors) := by
      rw [show (("## Breaking Changes:\n").data : Str) = '#' :: ("# Breaking Changes:\n").data
        from rfl]
      rw [List.cons_append, List.cons_append]
      exact trimLeft_cons_of_not_ws (by decide) _
    rw [h1]
    rw [trimRight_append_of_mem ((("## Breaking Changes:\n").data ++ bulletLines bs))
      (mem_append_of_mem_right (sectionsListOf g)
        (show '#' ∈ thanksPartOf contributors by
          unfold thanksPartOf
          exact List.mem_append_left _ (by decide)))
      (by decide)]
    rw [List.append_assoc]
  · exact ⟨_, rfl, rfl⟩

/-- Witness for C7 at a concrete one-bucket grouping. -/
theorem breaking_section_first_witness :
    ∃ restOut, renderMarkdown [(GroupKey.breaking, [exBreakCommit])] [("bob").data] =
      ("## Breaking Changes:\n").data ++ (bulletLines [exBreakCommit] ++ restOut) :=
  breaking_section_first.1 [(GroupKey.breaking, [exBreakCommit])] [("bob").data]
    [exBreakCommit] rfl (by decide)
